import Mathlib

/-!
Verification of the wealth-clock chat bot (src/index.js).

The JavaScript program is shallowly embedded: JS numbers are modelled as
exact rationals extended with NaN and the two infinities (JsNum), JS
objects as association lists with first-match lookup and in-place update,
and the two side effects of the webhook handler (the outbound price fetch
and the reply delivery) as explicit oracle inputs.  Durable storage is a
second copy of the store that is overwritten whole by saveUserData.
-/

/-- Whitespace characters recognised by the embedding of String.prototype.trim
and of the leading-whitespace skip of parseFloat and parseInt. -/
def isWsChar (c : Char) : Bool :=
  c = ' ' || c = '\t' || c = '\n' || c = '\r'

/-- Drop leading whitespace from a character list. -/
def dropWsL : List Char → List Char
  | [] => []
  | c :: rest => if isWsChar c then dropWsL rest else c :: rest

/-- Embedding of msg.trim(): remove leading and trailing whitespace. -/
def trimJs (s : String) : String :=
  String.mk ((dropWsL (dropWsL s.data).reverse).reverse)

/-- Embedding of str.split(chr) for a single space character: the string is cut
at every space, empty pieces included, exactly as in JavaScript. -/
def splitSp : List Char → List String
  | [] => [""]
  | c :: rest =>
      let r := splitSp rest
      if c = ' ' then "" :: r
      else (String.mk [c] ++ r.headD "") :: r.tail

/-- Lowercase one ASCII letter, as String.prototype.toLowerCase does on the
ASCII range used by the bot. -/
def lowAscii (c : Char) : Char :=
  if 65 ≤ c.toNat ∧ c.toNat ≤ 90 then Char.ofNat (c.toNat + 32) else c

/-- Uppercase one ASCII letter, as String.prototype.toUpperCase does on the
ASCII range used by the bot. -/
def upAscii (c : Char) : Char :=
  if 97 ≤ c.toNat ∧ c.toNat ≤ 122 then Char.ofNat (c.toNat - 32) else c

/-- Embedding of s.toLowerCase() on ASCII text. -/
def lowStr (s : String) : String := String.mk (s.data.map lowAscii)

/-- Embedding of s.toUpperCase() on ASCII text. -/
def upStr (s : String) : String := String.mk (s.data.map upAscii)

/-- Test whether the first list is an initial segment of the second. -/
def startsWithChars : List Char → List Char → Bool
  | [], _ => true
  | _ :: _, [] => false
  | p :: ps, c :: cs => p = c && startsWithChars ps cs

/-- Numeric value of a decimal digit character, none for other characters. -/
def digitVal (c : Char) : Option Nat :=
  if 48 ≤ c.toNat ∧ c.toNat ≤ 57 then some (c.toNat - 48) else none

/-- Greedily take a run of decimal digits from the front of a list. -/
def takeDigits : List Char → List Nat × List Char
  | [] => ([], [])
  | c :: rest =>
    match digitVal c with
    | some d => ((d :: (takeDigits rest).1), (takeDigits rest).2)
    | none => ([], c :: rest)

/-- Value of a digit run read in base ten. -/
def digitsToNat (ds : List Nat) : Nat := ds.foldl (fun a d => a * 10 + d) 0

/-- Consume an optional leading sign; the Bool is true for a minus sign. -/
def readSign : List Char → Bool × List Char
  | '+' :: r => (false, r)
  | '-' :: r => (true, r)
  | cs => (false, cs)

/-- JavaScript numbers of the program, idealised: NaN, the two infinities,
and exact rationals for the finite values. -/
inductive JsNum where
  | nan : JsNum
  | inf : JsNum
  | negInf : JsNum
  | fin : ℚ → JsNum
deriving DecidableEq, Repr

/-- The isNaN test of the source on an already-parsed number. -/
def JsNum.isNaN : JsNum → Bool
  | .nan => true
  | _ => false

/-- JavaScript addition on the idealised numbers. -/
def JsNum.add : JsNum → JsNum → JsNum
  | .nan, _ => .nan
  | _, .nan => .nan
  | .inf, .negInf => .nan
  | .negInf, .inf => .nan
  | .inf, _ => .inf
  | _, .inf => .inf
  | .negInf, _ => .negInf
  | _, .negInf => .negInf
  | .fin a, .fin b => .fin (a + b)

/-- JavaScript multiplication on the idealised numbers. -/
def JsNum.mul : JsNum → JsNum → JsNum
  | .nan, _ => .nan
  | _, .nan => .nan
  | .inf, .inf => .inf
  | .inf, .negInf => .negInf
  | .negInf, .inf => .negInf
  | .negInf, .negInf => .inf
  | .inf, .fin b => if 0 < b then .inf else if b < 0 then .negInf else .nan
  | .fin a, .inf => if 0 < a then .inf else if a < 0 then .negInf else .nan
  | .negInf, .fin b => if 0 < b then .negInf else if b < 0 then .inf else .nan
  | .fin a, .negInf => if 0 < a then .negInf else if a < 0 then .inf else .nan
  | .fin a, .fin b => .fin (a * b)

/-- JavaScript division on the idealised numbers (signed zero collapsed). -/
def JsNum.div : JsNum → JsNum → JsNum
  | .nan, _ => .nan
  | _, .nan => .nan
  | .inf, .inf => .nan
  | .inf, .negInf => .nan
  | .negInf, .inf => .nan
  | .negInf, .negInf => .nan
  | .inf, .fin b => if b < 0 then .negInf else .inf
  | .negInf, .fin b => if b < 0 then .inf else .negInf
  | .fin _, .inf => .fin 0
  | .fin _, .negInf => .fin 0
  | .fin a, .fin b =>
      if b = 0 then (if 0 < a then .inf else if a < 0 then .negInf else .nan)
      else .fin (a / b)

/-- Round a rational to two decimal places, the numeric content of
Number.prototype.toFixed(2). -/
def round2Q (q : ℚ) : ℚ := ((round (q * 100) : ℤ) : ℚ) / 100

/-- Numeric content of x.toFixed(2) on an idealised number. -/
def JsNum.toFixed2 : JsNum → JsNum
  | .fin q => .fin (round2Q q)
  | x => x

/-- Read an optional exponent part e/E sign digits; an incomplete exponent is
ignored, as JavaScript parseFloat ignores it. -/
def readExp (cs : List Char) : Int :=
  match cs with
  | 'e' :: r =>
      let (neg, r1) := readSign r
      let ds := (takeDigits r1).1
      if ds = [] then 0 else (if neg then -(digitsToNat ds : Int) else (digitsToNat ds : Int))
  | 'E' :: r =>
      let (neg, r1) := readSign r
      let ds := (takeDigits r1).1
      if ds = [] then 0 else (if neg then -(digitsToNat ds : Int) else (digitsToNat ds : Int))
  | _ => 0

/-- Embedding of JavaScript parseFloat: skip leading whitespace, optional
sign, the literal Infinity, or digits with optional fraction and exponent;
trailing characters are ignored; no usable prefix yields NaN. -/
def parseFloatJs (s : String) : JsNum :=
  let cs0 := dropWsL s.data
  let (neg, cs) := readSign cs0
  if startsWithChars ['I','n','f','i','n','i','t','y'] cs then
    (if neg then .negInf else .inf)
  else
    let (ints, cs1) := takeDigits cs
    let (fracs, cs2) :=
      match cs1 with
      | '.' :: r => takeDigits r
      | _ => ([], cs1)
    if ints = [] ∧ fracs = [] then .nan
    else
      let mant : ℚ := (digitsToNat ints : ℚ) + (digitsToNat fracs : ℚ) / ((10 : ℚ) ^ fracs.length)
      let v : ℚ := mant * (10 : ℚ) ^ (readExp cs2)
      .fin (if neg then -v else v)

/-- parseFloat applied to a possibly-undefined argument: parseFloat(undefined)
is NaN in JavaScript. -/
def parseFloatOpt : Option String → JsNum
  | none => .nan
  | some s => parseFloatJs s

/-- Numeric value of a hexadecimal digit character. -/
def hexVal (c : Char) : Option Nat :=
  if 48 ≤ c.toNat ∧ c.toNat ≤ 57 then some (c.toNat - 48)
  else if 97 ≤ c.toNat ∧ c.toNat ≤ 102 then some (c.toNat - 87)
  else if 65 ≤ c.toNat ∧ c.toNat ≤ 70 then some (c.toNat - 55)
  else none

/-- Greedily take a run of hexadecimal digits from the front of a list. -/
def takeHexDigits : List Char → List Nat
  | [] => []
  | c :: rest =>
    match hexVal c with
    | some d => d :: takeHexDigits rest
    | none => []

/-- Value of a hexadecimal digit run. -/
def hexToNat (ds : List Nat) : Nat := ds.foldl (fun a d => a * 16 + d) 0

/-- Embedding of JavaScript parseInt with no radix argument: skip whitespace,
optional sign, an optional 0x prefix switching to base sixteen, then greedy
digits; none yields NaN, modelled as none. -/
def parseIntJs (s : String) : Option Int :=
  let cs0 := dropWsL s.data
  let (neg, cs) := readSign cs0
  match cs with
  | '0' :: x :: rest =>
      if x = 'x' ∨ x = 'X' then
        let ds := takeHexDigits rest
        if ds = [] then none
        else some (if neg then -(hexToNat ds : Int) else (hexToNat ds : Int))
      else
        let ds := (takeDigits ('0' :: x :: rest)).1
        some (if neg then -(digitsToNat ds : Int) else (digitsToNat ds : Int))
  | _ =>
      let ds := (takeDigits cs).1
      if ds = [] then none
      else some (if neg then -(digitsToNat ds : Int) else (digitsToNat ds : Int))

/-- parseInt applied to a possibly-undefined argument: parseInt(undefined)
is NaN in JavaScript. -/
def parseIntOpt : Option String → Option Int
  | none => none
  | some s => parseIntJs s

/-- A user record of src/index.js: a goal amount (written by parseInt, hence
integral) and the assets object, a mapping from symbol to held quantity in
insertion order. -/
structure UserRecord where
  goal : Int
  assets : List (String × JsNum)
deriving DecidableEq, Repr

/-- The record created lazily on first contact: goal 0, no assets. -/
def defaultRecord : UserRecord := ⟨0, []⟩

/-- The user store: a JavaScript object keyed by user identifier. -/
abbrev Store := List (String × UserRecord)

/-- First-match association lookup, the embedding of obj[key]. -/
def lookupA {α : Type} : List (String × α) → String → Option α
  | [], _ => none
  | p :: rest, k => if p.1 = k then some p.2 else lookupA rest k

/-- The embedding of obj[key] = v: overwrite in place when the key exists,
append otherwise, as JavaScript objects keep insertion order. -/
def setA {α : Type} : List (String × α) → String → α → List (String × α)
  | [], k, v => [(k, v)]
  | p :: rest, k, v => if p.1 = k then (k, v) :: rest else p :: setA rest k v

/-- In-memory store plus the durable copy written by saveUserData. -/
structure SysState where
  mem : Store
  dur : Store
deriving DecidableEq, Repr

/-- The record a user identifier denotes, with an absent entry meaning the
default record the lazy-creation line would install. -/
def recordOf (s : Store) (v : String) : UserRecord :=
  (lookupA s v).getD defaultRecord

/-- Embedding of cryptoSymbolToId: the fixed symbol allow-list of the bot. -/
def cryptoSymbolToId (symbol : String) : Option String :=
  let k := lowStr symbol
  if k = "btc" then some "bitcoin"
  else if k = "eth" then some "ethereum"
  else if k = "usdt" then some "tether"
  else none

/-- What the price provider does on one outbound request: a price object
keyed by identifier, an HTTP error status, or a network failure. -/
inductive HttpOutcome where
  | ok (data : List (String × ℚ))
  | httpError (status : Nat)
  | networkErr
deriving DecidableEq, Repr

/-- Result of getCryptoPrices as the /status branch sees it: the price data,
or one of the two error objects the function can return. -/
inductive PriceResult where
  | rateLimit
  | apiError
  | ok (data : List (String × ℚ))
deriving DecidableEq, Repr

/-- Embedding of getCryptoPrices of src/index.js: a successful response is
returned as is; a 429 response maps to the RATE_LIMIT error object; every
other failure maps to the API_ERROR error object. -/
def getCryptoPrices (resp : HttpOutcome) : PriceResult :=
  match resp with
  | .ok d => .ok d
  | .httpError s => if s = 429 then .rateLimit else .apiError
  | .networkErr => .apiError

/-- The prices[id] lookup of the valuation loop: on the success object the
identifier is looked up; on either error object every lookup is undefined. -/
def pricesLookup (pr : PriceResult) (id : String) : Option ℚ :=
  match pr with
  | .ok d => lookupA d id
  | _ => none

/-- The ids list of the /status branch: symbols mapped through
cryptoSymbolToId with unresolvable ones filtered out. -/
def resolveIds (assets : List (String × JsNum)) : List String :=
  (assets.map (fun p => cryptoSymbolToId p.1)).filterMap (fun x => x)

/-- One line of the /status summary: symbol, quantity, unit price, value. -/
structure StatusLine where
  symUpper : String
  qty : JsNum
  price : ℚ
  value : JsNum
deriving DecidableEq, Repr

/-- The goal-progress figure of the summary: a number or the N/A text. -/
inductive PercentVal where
  | na
  | num (v : JsNum)
deriving DecidableEq, Repr

/-- The observable reply of one event, one constructor per distinct message
the handler can send, carrying the data interpolated into the text. -/
inductive Reply where
  | addUsage
  | addOk (symUpper amountRaw : String)
  | setgoalUsage
  | setgoalOk (amountRaw : String)
  | noHoldings
  | unrecognizedSymbols
  | rateLimited
  | statusSummary (detail : List StatusLine) (totalUSD totalTWD : JsNum) (percent : PercentVal)
  | help
deriving DecidableEq, Repr

/-- One turn of the valuation loop: resolve the symbol, skip it when no price
came back, otherwise accumulate price times quantity and a detail line. -/
def valStep (pr : PriceResult) (acc : JsNum × List StatusLine) (p : String × JsNum) :
    JsNum × List StatusLine :=
  match (cryptoSymbolToId p.1).bind (pricesLookup pr) with
  | none => acc
  | some price =>
      (acc.1.add (JsNum.mul (.fin price) p.2),
       acc.2 ++ [⟨upStr p.1, p.2, price, JsNum.mul (.fin price) p.2⟩])

/-- The valuation loop of the /status branch: fold over the held assets
accumulating totalUSD and the detail lines. -/
def valuation (pr : PriceResult) (assets : List (String × JsNum)) :
    JsNum × List StatusLine :=
  assets.foldl (valStep pr) (.fin 0, [])

/-- Per-event environment: what the provider would answer if queried, and
whether the reply delivery to the chat platform rejects for this event. -/
structure Oracle where
  http : HttpOutcome
  replyThrows : Bool
deriving DecidableEq, Repr

/-- The truthiness test !symbol of the /add branch: the argument is absent
or is the empty string. -/
def jsFalsyStr : Option String → Bool
  | none => true
  | some s => s = ""

/-- The /add branch: validate, then overwrite the asset entry, persist the
whole store, and confirm. -/
def addCmd (st : SysState) (uid : String) (rec : UserRecord)
    (symbol amount : Option String) : SysState × Option (List String) × Reply :=
  if jsFalsyStr symbol || (parseFloatOpt amount).isNaN then
    (st, none, .addUsage)
  else
    let sym := symbol.getD ""
    let rec2 := { rec with assets := setA rec.assets (lowStr sym) (parseFloatOpt amount) }
    let mem2 := setA st.mem uid rec2
    (⟨mem2, mem2⟩, none, .addOk (upStr sym) (amount.getD ""))

/-- The /setgoal branch: validate with parseInt, then overwrite the goal,
persist the whole store, and confirm with the raw argument. -/
def setgoalCmd (st : SysState) (uid : String) (rec : UserRecord)
    (symbol : Option String) : SysState × Option (List String) × Reply :=
  match parseIntOpt symbol with
  | none => (st, none, .setgoalUsage)
  | some g =>
      let rec2 := { rec with goal := g }
      let mem2 := setA st.mem uid rec2
      (⟨mem2, mem2⟩, none, .setgoalOk (symbol.getD ""))

/-- The /status branch: no holdings and unresolvable-symbol guards, then the
price fetch, the rate-limit check, and the valuation summary.  The middle
component records the identifier list of the outbound fetch when one is
performed. -/
def statusCmd (o : Oracle) (st : SysState) (rec : UserRecord) :
    SysState × Option (List String) × Reply :=
  if rec.assets.isEmpty then (st, none, .noHoldings)
  else
    let ids := resolveIds rec.assets
    if ids.isEmpty then (st, none, .unrecognizedSymbols)
    else
      match getCryptoPrices o.http with
      | .rateLimit => (st, some ids, .rateLimited)
      | pr =>
          let v := valuation pr rec.assets
          let totalUSD := v.1
          let totalTWD := totalUSD.mul (.fin 32)
          let goal : Int := if rec.goal = 0 then 0 else rec.goal
          let percent :=
            if 0 < goal then
              PercentVal.num (((totalTWD.div (.fin (goal : ℚ))).mul (.fin 100)).toFixed2)
            else PercentVal.na
          (st, some ids, .statusSummary v.2 totalUSD totalTWD percent)

/-- Command dispatch of the webhook handler: the command token is compared
verbatim against the three commands, anything else gets the help text. -/
def dispatch (o : Oracle) (st : SysState) (uid : String) (rec : UserRecord)
    (cmd : String) (symbol amount : Option String) :
    SysState × Option (List String) × Reply :=
  if cmd = "/add" then addCmd st uid rec symbol amount
  else if cmd = "/setgoal" then setgoalCmd st uid rec symbol
  else if cmd = "/status" then statusCmd o st rec
  else (st, none, .help)

/-- The lazy record creation line: userData[userId] = userData[userId] or
the default record. -/
def lazyCreate (m : Store) (uid : String) : Store :=
  match lookupA m uid with
  | some _ => m
  | none => setA m uid defaultRecord

/-- The pieces of msg.trim().split(chr-space). -/
def msgParts (text : String) : List String := splitSp (trimJs text).data

/-- Inbound webhook events: a text message with sender and text, or any
other event shape, which the handler skips. -/
inductive Event where
  | textMessage (userId : String) (text : String)
  | other
deriving DecidableEq, Repr

/-- Sender of an event, when it has one. -/
def Event.sender : Event → Option String
  | .textMessage uid _ => some uid
  | .other => none

/-- Observable outcome of one event: skipped without reply, replied, or an
exception reached the per-event catch block. -/
inductive Outcome where
  | skipped
  | replied (r : Reply)
  | raised
deriving DecidableEq, Repr

/-- State, outcome and fetch record of handling one event. -/
structure StepResult where
  state : SysState
  outcome : Outcome
  fetched : Option (List String)
deriving DecidableEq, Repr

/-- Handling of one event of the webhook batch: skip non-text events, trim
and split the message text on spaces, create the user record lazily, then
dispatch on the command token.  A rejected reply delivery surfaces as the
raised outcome; state changes made before the reply stand, as in the
source, where the try-catch of the loop body catches the rejection. -/
def handleEvent (o : Oracle) (st : SysState) : Event → StepResult
  | .other => ⟨st, .skipped, none⟩
  | .textMessage uid text =>
      let parts := msgParts text
      let cmd := parts.headD ""
      let symbol := (parts.drop 1).head?
      let amount := (parts.drop 2).head?
      let mem1 := lazyCreate st.mem uid
      let rec1 := recordOf mem1 uid
      let r := dispatch o ⟨mem1, st.dur⟩ uid rec1 cmd symbol amount
      ⟨r.1, if o.replyThrows then .raised else .replied r.2.2, r.2.1⟩

/-- Result of one webhook delivery: final state, the outcome of every
attempted event in order, and the HTTP status returned to the platform. -/
structure BatchResult where
  state : SysState
  outcomes : List Outcome
  httpStatus : Nat
deriving DecidableEq, Repr

/-- The webhook endpoint: load the store, handle the events in order with
each event's failure confined to its own catch, then answer 200. -/
def processBatch (batch : List (Event × Oracle)) (dur : Store) : BatchResult :=
  let init : SysState := ⟨dur, dur⟩
  let r := batch.foldl
    (fun (acc : SysState × List Outcome) eo =>
      let s := handleEvent eo.2 acc.1 eo.1
      (s.state, acc.2 ++ [s.outcome]))
    (init, ([] : List Outcome))
  ⟨r.1, r.2, 200⟩

/-- States reachable from an empty deployment: the initial empty store, one
handled event, or a fresh webhook delivery reloading memory from disk. -/
inductive Reachable : SysState → Prop where
  | init : Reachable ⟨[], []⟩
  | step (o : Oracle) (e : Event) {st : SysState} :
      Reachable st → Reachable (handleEvent o st e).state
  | reload {st : SysState} : Reachable st → Reachable ⟨st.dur, st.dur⟩

/-- Claim-side value of one holding: the returned unit price times the held
quantity, none when the provider returned no price for the symbol. -/
def pricedValue (d : List (String × ℚ)) (p : String × ℚ) : Option ℚ :=
  ((cryptoSymbolToId p.1).bind (lookupA d)).map (fun pr => pr * p.2)

/-- Claim-side detail line of one holding, none when it has no price. -/
def pricedLine (d : List (String × ℚ)) (p : String × ℚ) : Option StatusLine :=
  ((cryptoSymbolToId p.1).bind (lookupA d)).map
    (fun pr => ⟨upStr p.1, .fin p.2, pr, .fin (pr * p.2)⟩)

/-- Inject a rational-valued holding into the stored representation. -/
def finPair (p : String × ℚ) : String × JsNum := (p.1, .fin p.2)

/-- Witness scenario for C1: the worked example of the specification. -/
def wStoreC1 : SysState :=
  ⟨[("U", ⟨1000000, [("btc", .fin (1/2)), ("eth", .fin 2)]⟩)],
   [("U", ⟨1000000, [("btc", .fin (1/2)), ("eth", .fin 2)]⟩)]⟩

/-- Store used by the C2 evaluation: one user holding one resolvable symbol. -/
def wStoreC2 : SysState :=
  ⟨[("U", ⟨0, [("btc", .fin 1)]⟩)], [("U", ⟨0, [("btc", .fin 1)]⟩)]⟩

/-- Split at every whitespace character, empty pieces included. -/
def splitWsAll : List Char → List String
  | [] => [""]
  | c :: rest =>
      let r := splitWsAll rest
      if isWsChar c then "" :: r
      else (String.mk [c] ++ r.headD "") :: r.tail

/-- Modelled from the spec: split the trimmed message text on whitespace,
that is into the tokens separated by runs of whitespace characters.  This is
the reading of the parsing sentence of the spec, kept for comparison with
the single-space split the source actually performs. -/
def wsTokens (s : String) : List String :=
  (splitWsAll (trimJs s).data).filter (fun t => t != "")

/-- The per-record part of the reachable-state invariant: asset keys are in
lowercase form (fixed points of the lowercasing map) and asset values are
never NaN.  The goal field is an integer by construction. -/
def recOK (r : UserRecord) : Prop :=
  ∀ p ∈ r.assets, lowStr p.1 = p.1 ∧ p.2 ≠ JsNum.nan

/-- Every record of the store satisfies the record invariant. -/
def storeOK (s : Store) : Prop := ∀ p ∈ s, recOK p.2

/-- Both the in-memory and the durable store satisfy the invariant. -/
def stateOK (st : SysState) : Prop := storeOK st.mem ∧ storeOK st.dur

example : parseFloatJs "0.5" = .fin (1/2) := by
  simp +decide [parseFloatJs, dropWsL, readSign, startsWithChars, takeDigits, digitVal,
    digitsToNat, readExp, isWsChar] <;> norm_num
example : parseFloatJs "abc" = .nan := by
  simp +decide [parseFloatJs, dropWsL, readSign, startsWithChars, takeDigits, digitVal,
    digitsToNat, readExp, isWsChar] <;> norm_num
example : parseFloatJs "Infinity" = .inf := by
  simp +decide [parseFloatJs, dropWsL, readSign, startsWithChars, takeDigits, digitVal,
    digitsToNat, readExp, isWsChar] <;> norm_num
example : parseFloatJs "-3.25" = .fin (-13/4) := by
  simp +decide [parseFloatJs, dropWsL, readSign, startsWithChars, takeDigits, digitVal,
    digitsToNat, readExp, isWsChar] <;> norm_num
example : parseFloatJs "1.5x" = .fin (3/2) := by
  simp +decide [parseFloatJs, dropWsL, readSign, startsWithChars, takeDigits, digitVal,
    digitsToNat, readExp, isWsChar] <;> norm_num
example : parseIntJs "1000000" = some 1000000 := by decide
example : parseIntJs "-100" = some (-100) := by decide
example : parseIntJs "abc" = none := by decide
example : parseIntJs "12.9" = some 12 := by decide
example : trimJs "  /status  " = "/status" := by decide
example : splitSp ("/add btc 0.5".data) = ["/add", "btc", "0.5"] := by decide
example : splitSp ("a  b".data) = ["a", "", "b"] := by decide
example : splitSp ("".data) = [""] := by decide
example : lowStr "BtC" = "btc" := by decide
example : upStr "btc" = "BTC" := by decide

theorem lookupA_setA_self {α : Type} (l : List (String × α)) (k : String) (v : α) :
    lookupA (setA l k v) k = some v := by
  induction l with
  | nil => simp [setA, lookupA]
  | cons p rest ih =>
      by_cases h : p.1 = k
      · simp [setA, lookupA, h]
      · simp [setA, lookupA, h, ih]

theorem lookupA_setA_ne {α : Type} (l : List (String × α)) (k k2 : String) (v : α)
    (h : k2 ≠ k) : lookupA (setA l k v) k2 = lookupA l k2 := by
  have h3 : ¬ (k = k2) := fun hh => h hh.symm
  induction l with
  | nil => simp [setA, lookupA, h3]
  | cons p rest ih =>
      by_cases hp : p.1 = k
      · have h2 : ¬ (p.1 = k2) := fun hh => h (hh.symm.trans hp)
        simp [setA, lookupA, hp, h2, h3]
      · simp [setA, lookupA, hp, ih]

theorem lookupA_mem {α : Type} {l : List (String × α)} {k : String} {v : α}
    (h : lookupA l k = some v) : (k, v) ∈ l := by
  induction l with
  | nil => simp [lookupA] at h
  | cons p rest ih =>
      by_cases hp : p.1 = k
      · simp [lookupA, hp] at h
        have hpv : (k, v) = p := by
          cases p
          simp_all
        rw [hpv]
        exact List.mem_cons_self _ _
      · simp [lookupA, hp] at h
        exact List.mem_cons_of_mem _ (ih h)

theorem mem_setA {α : Type} {l : List (String × α)} {k : String} {v : α} {p : String × α}
    (h : p ∈ setA l k v) : p = (k, v) ∨ p ∈ l := by
  induction l with
  | nil => simpa [setA] using h
  | cons q rest ih =>
      by_cases hq : q.1 = k
      · simp [setA, hq] at h
        rcases h with h | h
        · exact Or.inl h
        · exact Or.inr (List.mem_cons_of_mem _ h)
      · simp [setA, hq] at h
        rcases h with h | h
        · exact Or.inr (by simp [h])
        · rcases ih h with h2 | h2
          · exact Or.inl h2
          · exact Or.inr (List.mem_cons_of_mem _ h2)

theorem lookupA_lazyCreate_mono {m : Store} {uid v : String} {r : UserRecord}
    (h : lookupA m v = some r) : lookupA (lazyCreate m uid) v = some r := by
  unfold lazyCreate
  cases hu : lookupA m uid with
  | some _ => simpa using h
  | none =>
      by_cases hv : v = uid
      · subst hv
        rw [h] at hu
        cases hu
      · rw [lookupA_setA_ne _ _ _ _ hv]
        exact h

theorem recordOf_lazyCreate_ne (m : Store) (uid v : String) (h : v ≠ uid) :
    recordOf (lazyCreate m uid) v = recordOf m v := by
  unfold lazyCreate
  cases hu : lookupA m uid with
  | some _ => rfl
  | none => unfold recordOf; rw [lookupA_setA_ne _ _ _ _ h]

theorem pricesLookup_ok (d : List (String × ℚ)) (id : String) :
    pricesLookup (.ok d) id = lookupA d id := rfl

theorem valuation_ok_fold (d : List (String × ℚ)) (l : List (String × ℚ))
    (a : ℚ) (ls : List StatusLine) :
    (l.map finPair).foldl (valStep (.ok d)) (.fin a, ls) =
      (.fin (a + (l.filterMap (pricedValue d)).sum), ls ++ l.filterMap (pricedLine d)) := by
  induction l generalizing a ls with
  | nil => simp
  | cons p rest ih =>
      simp only [List.map_cons, List.foldl_cons]
      cases h : (cryptoSymbolToId p.1).bind (lookupA d) with
      | none =>
          have hs : valStep (.ok d) (.fin a, ls) (finPair p) = (.fin a, ls) := by
            simp [valStep, finPair, pricesLookup_ok, h]
          rw [hs, ih]
          simp [pricedValue, pricedLine, List.filterMap_cons, h]
      | some price =>
          have hs : valStep (.ok d) (.fin a, ls) (finPair p) =
              (.fin (a + price * p.2), ls ++ [⟨upStr p.1, .fin p.2, price, .fin (price * p.2)⟩]) := by
            simp [valStep, finPair, pricesLookup_ok, h, JsNum.add, JsNum.mul]
          rw [hs, ih]
          simp [pricedValue, pricedLine, List.filterMap_cons, h, add_assoc]

theorem valuation_ok (d : List (String × ℚ)) (l : List (String × ℚ)) :
    valuation (.ok d) (l.map finPair) =
      (.fin ((l.filterMap (pricedValue d)).sum), l.filterMap (pricedLine d)) := by
  have h := valuation_ok_fold d l 0 []
  simpa [valuation] using h

theorem handleEvent_text (o : Oracle) (st : SysState) (uid text : String) :
    handleEvent o st (.textMessage uid text) =
      ⟨(dispatch o ⟨lazyCreate st.mem uid, st.dur⟩ uid (recordOf (lazyCreate st.mem uid) uid)
          ((msgParts text).headD "") (((msgParts text).drop 1).head?)
          (((msgParts text).drop 2).head?)).1,
       if o.replyThrows then .raised
       else .replied (dispatch o ⟨lazyCreate st.mem uid, st.dur⟩ uid
          (recordOf (lazyCreate st.mem uid) uid)
          ((msgParts text).headD "") (((msgParts text).drop 1).head?)
          (((msgParts text).drop 2).head?)).2.2,
       (dispatch o ⟨lazyCreate st.mem uid, st.dur⟩ uid (recordOf (lazyCreate st.mem uid) uid)
          ((msgParts text).headD "") (((msgParts text).drop 1).head?)
          (((msgParts text).drop 2).head?)).2.1⟩ := rfl

theorem dispatch_status (o : Oracle) (st : SysState) (uid : String) (rec : UserRecord)
    (sa aa : Option String) :
    dispatch o st uid rec "/status" sa aa = statusCmd o st rec := by
  simp +decide [dispatch]

theorem statusCmd_ok (o : Oracle) (st : SysState) (g : Int) (qas d : List (String × ℚ))
    (hhttp : o.http = .ok d) (hne : qas ≠ [])
    (hres : resolveIds (qas.map finPair) ≠ []) :
    statusCmd o st ⟨g, qas.map finPair⟩ =
      (st, some (resolveIds (qas.map finPair)),
        .statusSummary (qas.filterMap (pricedLine d))
          (.fin ((qas.filterMap (pricedValue d)).sum))
          (.fin ((qas.filterMap (pricedValue d)).sum * 32))
          (if 0 < g then
            .num (.fin (round2Q ((qas.filterMap (pricedValue d)).sum * 32 / (g : ℚ) * 100)))
           else .na)) := by
  have hA : ((⟨g, qas.map finPair⟩ : UserRecord).assets).isEmpty = false := by
    cases qas with
    | nil => exact absurd rfl hne
    | cons a l => rfl
  have hI : (resolveIds (qas.map finPair)).isEmpty = false := by
    cases hrr : resolveIds (qas.map finPair) with
    | nil => exact absurd hrr hres
    | cons a l => rfl
  unfold statusCmd
  rw [hA, hhttp]
  simp only [Bool.false_eq_true, if_false, hI, getCryptoPrices]
  rw [valuation_ok]
  by_cases hg : 0 < g
  · have hg0 : g ≠ 0 := ne_of_gt hg
    have hgq : ((g : ℚ)) ≠ 0 := Int.cast_ne_zero.mpr hg0
    simp only [hg0, if_false, hg, if_true, JsNum.mul, JsNum.div, hgq, JsNum.toFixed2]
  · by_cases hg0 : g = 0
    · subst hg0
      simp [JsNum.mul, hg]
    · simp only [hg0, if_false, hg, if_true, JsNum.mul]

/-- C1: for every /status request with a non-empty set of resolvable holdings
and a successful price response, the reply totals satisfy: totalUSD is the
sum, over every held symbol whose price was returned, of returned price times
held quantity; symbols with no returned price are skipped silently; totalTWD
is totalUSD times the fixed multiplier 32; and the percent figure is
totalTWD / goal * 100 rounded to two decimal places when the goal is
positive, and the N/A marker when the goal is zero or negative. -/
theorem c1_status_valuation (st : SysState) (uid : String) (g : Int)
    (qas d : List (String × ℚ))
    (hrec : lookupA st.mem uid = some ⟨g, qas.map finPair⟩)
    (hne : qas ≠ [])
    (hres : resolveIds (qas.map finPair) ≠ []) :
    (handleEvent ⟨.ok d, false⟩ st (.textMessage uid "/status")).outcome =
      .replied (.statusSummary
        (qas.filterMap (pricedLine d))
        (.fin ((qas.filterMap (pricedValue d)).sum))
        (.fin ((qas.filterMap (pricedValue d)).sum * 32))
        (if 0 < g then
          .num (.fin (round2Q ((qas.filterMap (pricedValue d)).sum * 32 / (g : ℚ) * 100)))
         else .na)) := by
  have hlc : lazyCreate st.mem uid = st.mem := by
    unfold lazyCreate
    rw [hrec]
  have hro : recordOf (lazyCreate st.mem uid) uid = ⟨g, qas.map finPair⟩ := by
    rw [hlc]
    unfold recordOf
    rw [hrec]
    rfl
  have hparts : msgParts "/status" = ["/status"] := by decide
  rw [handleEvent_text]
  simp only [hparts, hro, List.headD, List.drop, List.head?]
  rw [dispatch_status, statusCmd_ok _ _ _ _ d rfl hne hres]
  rfl

theorem c1_status_valuation_witness :
    (handleEvent ⟨.ok [("bitcoin", 50000), ("ethereum", 3000)], false⟩ wStoreC1
        (.textMessage "U" "/status")).outcome =
      .replied (.statusSummary
        [⟨"BTC", .fin (1/2), 50000, .fin 25000⟩, ⟨"ETH", .fin 2, 3000, .fin 6000⟩]
        (.fin 31000) (.fin 992000) (.num (.fin (496/5)))) := by
  have h := c1_status_valuation wStoreC1 "U" 1000000 [("btc", 1/2), ("eth", 2)]
    [("bitcoin", 50000), ("ethereum", 3000)] rfl (by simp) (by decide)
  rw [h]
  simp +decide [pricedLine, pricedValue, cryptoSymbolToId, lowStr, lowAscii, upStr, upAscii,
    lookupA, round2Q] <;> norm_num [round2Q]

theorem isEmpty_false_of_ne {α : Type} {l : List α} (h : l ≠ []) : l.isEmpty = false := by
  cases l with
  | nil => exact absurd rfl h
  | cons a r => rfl

/-- C2 evaluated at the failing input: when the provider fails with a generic
error on a /status over one resolvable holding, the src/index.js handler does
not send a failure message.  The API_ERROR object passes the only then-present
check, the rate-limit one, flows into the valuation loop where every price
lookup misses, and the bot replies with a valuation summary totalling zero. -/
theorem c2_api_error_yields_summary :
    handleEvent ⟨.networkErr, false⟩ wStoreC2 (.textMessage "U" "/status") =
      ⟨wStoreC2, .replied (.statusSummary [] (.fin 0) (.fin 0) .na), some ["bitcoin"]⟩ := by
  simp +decide [handleEvent, msgParts, trimJs, dropWsL, splitSp, isWsChar, lazyCreate,
    lookupA, setA, recordOf, defaultRecord, dispatch, addCmd, setgoalCmd, statusCmd,
    jsFalsyStr, parseFloatOpt, parseFloatJs, parseIntOpt, parseIntJs, readSign, readExp,
    takeDigits, digitVal, digitsToNat, startsWithChars, lowAscii, upAscii, lowStr, upStr,
    cryptoSymbolToId, getCryptoPrices, pricesLookup, resolveIds, valuation, valStep,
    JsNum.add, JsNum.mul, JsNum.div, JsNum.toFixed2, JsNum.isNaN, round2Q, wStoreC2]

/-- C3 counterexample: the text Infinity does not parse as a finite number,
yet the /add handler accepts it: starting from an empty store, the command
add btc Infinity stores an infinite quantity, persists it, and replies with
the confirmation, not with the usage-error reply the claim requires for a
non-finite amount. -/
theorem c3_infinity_accepted :
    parseFloatJs "Infinity" = JsNum.inf ∧
    handleEvent ⟨.networkErr, false⟩ ⟨[], []⟩ (.textMessage "U" "/add btc Infinity") =
      ⟨⟨[("U", ⟨0, [("btc", .inf)]⟩)], [("U", ⟨0, [("btc", .inf)]⟩)]⟩,
       .replied (.addOk "BTC" "Infinity"), none⟩ := by
  constructor
  · decide
  · simp +decide [handleEvent, msgParts, trimJs, dropWsL, splitSp, isWsChar, lazyCreate,
      lookupA, setA, recordOf, defaultRecord, dispatch, addCmd, setgoalCmd, statusCmd,
      jsFalsyStr, parseFloatOpt, parseFloatJs, parseIntOpt, parseIntJs, readSign, readExp,
      takeDigits, digitVal, digitsToNat, startsWithChars, lowAscii, upAscii, lowStr, upStr,
      JsNum.isNaN]

/-- C3 (amended): for every /add command, when the symbol argument is absent
or empty, or the amount argument parses as NaN, the handler sends the single
usage-error reply and the store is untouched; otherwise — JavaScript
parseFloat also accepts infinite values, so finiteness is not required — it
overwrites assets at the lowercased symbol with the parsed amount, persists
the whole store, and confirms with the uppercased symbol and the amount as
given. -/
theorem c3_add_validation (o : Oracle) (st : SysState) (uid : String) (rec : UserRecord)
    (symbol amount : Option String) :
    ((jsFalsyStr symbol || (parseFloatOpt amount).isNaN) = true →
      dispatch o st uid rec "/add" symbol amount = (st, none, .addUsage)) ∧
    ((jsFalsyStr symbol || (parseFloatOpt amount).isNaN) = false →
      dispatch o st uid rec "/add" symbol amount =
        (⟨setA st.mem uid
            ⟨rec.goal, setA rec.assets (lowStr (symbol.getD "")) (parseFloatOpt amount)⟩,
          setA st.mem uid
            ⟨rec.goal, setA rec.assets (lowStr (symbol.getD "")) (parseFloatOpt amount)⟩⟩,
         none, .addOk (upStr (symbol.getD "")) (amount.getD "")) ∧
      lookupA (setA rec.assets (lowStr (symbol.getD "")) (parseFloatOpt amount))
          (lowStr (symbol.getD "")) = some (parseFloatOpt amount)) := by
  constructor
  · intro h
    simp +decide [dispatch, addCmd, h]
  · intro h
    refine ⟨?_, lookupA_setA_self _ _ _⟩
    simp +decide [dispatch, addCmd, h]

theorem c3_add_validation_witness :
    (dispatch ⟨.networkErr, false⟩ ⟨[], []⟩ "U" defaultRecord "/add"
        (some "btc") (some "abc") = (⟨[], []⟩, none, .addUsage)) ∧
    (dispatch ⟨.networkErr, false⟩ ⟨[], []⟩ "U" defaultRecord "/add"
        (some "btc") (some "0.5")).2.2 = .addOk "BTC" "0.5" := by
  constructor
  · exact (c3_add_validation ⟨.networkErr, false⟩ ⟨[], []⟩ "U" defaultRecord
      (some "btc") (some "abc")).1 (by decide)
  · rw [((c3_add_validation ⟨.networkErr, false⟩ ⟨[], []⟩ "U" defaultRecord
      (some "btc") (some "0.5")).2 (by decide)).1]
    decide

/-- C4: a provider response of HTTP 429 is mapped by getCryptoPrices to the
distinguished RATE_LIMIT outcome, not the generic error; a /status that
reaches the price fetch then replies with the specific rate-limit message,
performs no valuation, and leaves the store, memory and durable alike,
unchanged. -/
theorem c4_rate_limit (st : SysState) (uid : String) (rec : UserRecord)
    (sa aa : Option String) (hne : rec.assets ≠ [])
    (hres : resolveIds rec.assets ≠ []) :
    getCryptoPrices (.httpError 429) = .rateLimit ∧
    dispatch ⟨.httpError 429, false⟩ st uid rec "/status" sa aa =
      (st, some (resolveIds rec.assets), .rateLimited) := by
  refine ⟨rfl, ?_⟩
  rw [dispatch_status]
  unfold statusCmd
  simp [isEmpty_false_of_ne hne, isEmpty_false_of_ne hres, getCryptoPrices]

theorem c4_rate_limit_witness :
    getCryptoPrices (.httpError 429) = .rateLimit ∧
    dispatch ⟨.httpError 429, false⟩ ⟨[], []⟩ "U" ⟨0, [("btc", .fin 1)]⟩ "/status"
        none none = (⟨[], []⟩, some ["bitcoin"], .rateLimited) := by
  have h := c4_rate_limit ⟨[], []⟩ "U" ⟨0, [("btc", .fin 1)]⟩ none none
    (by simp) (by decide)
  exact ⟨h.1, h.2.trans (by decide)⟩

/-- C5: a /status performs the outbound price fetch exactly when the assets
mapping is non-empty and at least one held symbol resolves to a provider
identifier; with no holdings it sends the no-holdings reply without fetching,
and with holdings but no resolvable symbol it sends the unrecognized-symbols
reply without fetching. -/
theorem c5_fetch_iff (o : Oracle) (st : SysState) (uid : String) (rec : UserRecord)
    (sa aa : Option String) :
    ((dispatch o st uid rec "/status" sa aa).2.1.isSome = true ↔
      (rec.assets ≠ [] ∧ resolveIds rec.assets ≠ [])) ∧
    (rec.assets = [] →
      dispatch o st uid rec "/status" sa aa = (st, none, .noHoldings)) ∧
    (rec.assets ≠ [] → resolveIds rec.assets = [] →
      dispatch o st uid rec "/status" sa aa = (st, none, .unrecognizedSymbols)) := by
  rw [dispatch_status]
  unfold statusCmd
  by_cases hA : rec.assets = []
  · simp [hA]
  · have hAe : rec.assets.isEmpty = false := isEmpty_false_of_ne hA
    by_cases hI : resolveIds rec.assets = []
    · simp [hAe, hA, hI]
    · have hIe : (resolveIds rec.assets).isEmpty = false := isEmpty_false_of_ne hI
      simp only [hAe, Bool.false_eq_true, if_false, hIe]
      cases hp : getCryptoPrices o.http <;> simp [hA, hI]

theorem c5_fetch_iff_witness :
    (dispatch ⟨.networkErr, false⟩ ⟨[], []⟩ "U" ⟨0, []⟩ "/status" none none =
      (⟨[], []⟩, none, .noHoldings)) ∧
    (dispatch ⟨.networkErr, false⟩ ⟨[], []⟩ "U" ⟨5, [("xyz", .fin 5)]⟩ "/status"
        none none = (⟨[], []⟩, none, .unrecognizedSymbols)) := by
  constructor
  · exact (c5_fetch_iff ⟨.networkErr, false⟩ ⟨[], []⟩ "U" ⟨0, []⟩ none none).2.1 rfl
  · exact (c5_fetch_iff ⟨.networkErr, false⟩ ⟨[], []⟩ "U" ⟨5, [("xyz", .fin 5)]⟩
      none none).2.2 (by simp) (by decide)

/-- C6 counterexample: on a message whose first two tokens are separated by a
tab, the source splits at single spaces only, so the command token keeps the
tab stuck to the argument, matches none of the three commands, and the
handler answers with the help text; a split on whitespace would have produced
the add command with its two arguments. -/
theorem c6_tab_not_whitespace_split :
    msgParts "/add\tbtc 1" = ["/add\tbtc", "1"] ∧
    wsTokens "/add\tbtc 1" = ["/add", "btc", "1"] ∧
    (handleEvent ⟨.networkErr, false⟩ ⟨[], []⟩
        (.textMessage "U" "/add\tbtc 1")).outcome = .replied .help := by
  refine ⟨by decide, by decide, by decide⟩

/-- C6 (amended): the handler splits the trimmed message text at single space
characters, not at general whitespace, into command and two arguments with
unused positions absent, compares the command token verbatim against the
three commands, and for any other token, the empty one included, sends the
fixed help reply. -/
theorem c6_space_split_dispatch (o : Oracle) (st : SysState) (uid text : String)
    (hrt : o.replyThrows = false)
    (h1 : (msgParts text).headD "" ≠ "/add")
    (h2 : (msgParts text).headD "" ≠ "/setgoal")
    (h3 : (msgParts text).headD "" ≠ "/status") :
    (handleEvent o st (.textMessage uid text)).outcome = .replied .help := by
  rw [handleEvent_text]
  dsimp only
  rw [hrt]
  unfold dispatch
  rw [if_neg h1, if_neg h2, if_neg h3]
  rfl

theorem c6_space_split_dispatch_witness :
    (handleEvent ⟨.networkErr, false⟩ ⟨[], []⟩
        (.textMessage "U" "hello world")).outcome = .replied .help :=
  c6_space_split_dispatch ⟨.networkErr, false⟩ ⟨[], []⟩ "U" "hello world" rfl
    (by decide) (by decide) (by decide)

theorem charOfNat_toNat_small : ∀ i : Fin 123, (Char.ofNat i.val).toNat = i.val := by decide

theorem charOfNat_toNat_le (n : Nat) (h : n ≤ 122) : (Char.ofNat n).toNat = n := by
  have h2 := charOfNat_toNat_small ⟨n, by omega⟩
  simpa using h2

theorem lowAscii_idem (c : Char) : lowAscii (lowAscii c) = lowAscii c := by
  unfold lowAscii
  by_cases h : 65 ≤ c.toNat ∧ c.toNat ≤ 90
  · have ht : (Char.ofNat (c.toNat + 32)).toNat = c.toNat + 32 :=
      charOfNat_toNat_le _ (by omega)
    have hno : ¬ (65 ≤ (Char.ofNat (c.toNat + 32)).toNat ∧
        (Char.ofNat (c.toNat + 32)).toNat ≤ 90) := by
      rw [ht]
      omega
    rw [if_pos h, if_neg hno]
  · rw [if_neg h, if_neg h]

theorem lowStr_idem (s : String) : lowStr (lowStr s) = lowStr s := by
  show String.mk ((s.data.map lowAscii).map lowAscii) = String.mk (s.data.map lowAscii)
  rw [List.map_map]
  congr 1
  simp [Function.comp_def, lowAscii_idem]

theorem recOK_default : recOK defaultRecord := by
  intro p hp
  simp [defaultRecord] at hp

theorem storeOK_setA {s : Store} {k : String} {r : UserRecord}
    (hs : storeOK s) (hr : recOK r) : storeOK (setA s k r) := by
  intro p hp
  rcases mem_setA hp with h | h
  · rw [h]
    exact hr
  · exact hs p h

theorem recOK_recordOf {s : Store} (hs : storeOK s) (v : String) :
    recOK (recordOf s v) := by
  unfold recordOf
  cases h : lookupA s v with
  | none => exact recOK_default
  | some r => exact hs _ (lookupA_mem h)

theorem storeOK_lazyCreate {m : Store} (hm : storeOK m) (uid : String) :
    storeOK (lazyCreate m uid) := by
  unfold lazyCreate
  cases lookupA m uid with
  | some _ => exact hm
  | none => exact storeOK_setA hm recOK_default

theorem statusCmd_state (o : Oracle) (st : SysState) (rec : UserRecord) :
    (statusCmd o st rec).1 = st := by
  unfold statusCmd
  dsimp only
  split
  · rfl
  · split
    · rfl
    · split <;> rfl

theorem dispatch_state_cases (o : Oracle) (st : SysState) (uid : String) (rec : UserRecord)
    (cmd : String) (symbol amount : Option String) :
    (dispatch o st uid rec cmd symbol amount).1 = st ∨
    (∃ sym q, q ≠ JsNum.nan ∧
      (dispatch o st uid rec cmd symbol amount).1 =
        ⟨setA st.mem uid ⟨rec.goal, setA rec.assets (lowStr sym) q⟩,
         setA st.mem uid ⟨rec.goal, setA rec.assets (lowStr sym) q⟩⟩) ∨
    (∃ g, (dispatch o st uid rec cmd symbol amount).1 =
        ⟨setA st.mem uid ⟨g, rec.assets⟩, setA st.mem uid ⟨g, rec.assets⟩⟩) := by
  by_cases h1 : cmd = "/add"
  · by_cases hv : (jsFalsyStr symbol || (parseFloatOpt amount).isNaN) = true
    · left
      simp [dispatch, addCmd, h1, hv]
    · right; left
      have hv2 : (jsFalsyStr symbol || (parseFloatOpt amount).isNaN) = false := by
        simpa using hv
      have hq : (parseFloatOpt amount) ≠ JsNum.nan := by
        intro hh
        have : (parseFloatOpt amount).isNaN = true := by rw [hh]; rfl
        simp [this] at hv2
      refine ⟨symbol.getD "", parseFloatOpt amount, hq, ?_⟩
      simp [dispatch, addCmd, h1, hv2]
  · by_cases h2 : cmd = "/setgoal"
    · cases hp : parseIntOpt symbol with
      | none =>
          left
          simp [dispatch, setgoalCmd, h1, h2, hp]
      | some g =>
          right; right
          refine ⟨g, ?_⟩
          simp [dispatch, setgoalCmd, h1, h2, hp]
    · by_cases h3 : cmd = "/status"
      · left
        simp only [dispatch, h1, h2, h3, if_false, if_true]
        exact statusCmd_state o st rec
      · left
        simp [dispatch, h1, h2, h3]

theorem stateOK_dispatch (o : Oracle) (st : SysState) (uid : String) (rec : UserRecord)
    (cmd : String) (symbol amount : Option String)
    (hst : stateOK st) (hrec : recOK rec) :
    stateOK (dispatch o st uid rec cmd symbol amount).1 := by
  rcases dispatch_state_cases o st uid rec cmd symbol amount with h | ⟨sym, q, hq, h⟩ | ⟨g, h⟩
  · rw [h]
    exact hst
  · rw [h]
    have hr2 : recOK ⟨rec.goal, setA rec.assets (lowStr sym) q⟩ := by
      intro p hp
      rcases mem_setA hp with hp2 | hp2
      · rw [hp2]
        exact ⟨lowStr_idem sym, hq⟩
      · exact hrec p hp2
    exact ⟨storeOK_setA hst.1 hr2, storeOK_setA hst.1 hr2⟩
  · rw [h]
    have hr2 : recOK ⟨g, rec.assets⟩ := fun p hp => hrec p hp
    exact ⟨storeOK_setA hst.1 hr2, storeOK_setA hst.1 hr2⟩

theorem stateOK_handleEvent (o : Oracle) (st : SysState) (e : Event) (h : stateOK st) :
    stateOK (handleEvent o st e).state := by
  cases e with
  | other => exact h
  | textMessage uid text =>
      rw [handleEvent_text]
      dsimp only
      exact stateOK_dispatch _ _ _ _ _ _ _
        ⟨storeOK_lazyCreate h.1 uid, h.2⟩
        (recOK_recordOf (storeOK_lazyCreate h.1 uid) uid)

/-- C7 counterexample: the handlers accept negative amounts.  From a default
record, setgoal -100 is accepted and stores a negative goal, and add btc -1
is accepted and stores a negative quantity, so the non-negativity part of
the data-model invariant does not hold for reachable records. -/
theorem c7_negative_values_stored :
    (dispatch ⟨.networkErr, false⟩ ⟨[("U", defaultRecord)], [("U", defaultRecord)]⟩ "U"
        defaultRecord "/setgoal" (some "-100") none).1.mem = [("U", ⟨-100, []⟩)] ∧
    (dispatch ⟨.networkErr, false⟩ ⟨[("U", defaultRecord)], [("U", defaultRecord)]⟩ "U"
        defaultRecord "/add" (some "btc") (some "-1")).1.mem =
      [("U", ⟨0, [("btc", .fin (-1))]⟩)] ∧
    ((-100 : Int) < 0 ∧ (-1 : ℚ) < 0) := by
  refine ⟨by decide, ?_, by norm_num⟩
  simp +decide [dispatch, addCmd, setgoalCmd, jsFalsyStr, parseFloatOpt, parseFloatJs,
    parseIntOpt, parseIntJs, readSign, readExp, takeDigits, digitVal, digitsToNat,
    startsWithChars, dropWsL, isWsChar, lowStr, lowAscii, upStr, upAscii, setA, lookupA,
    defaultRecord, JsNum.isNaN] <;> norm_num

/-- C7 (amended): every state reachable through any sequence of events keeps
the data-model invariant that the code actually maintains: in every stored
record, in memory and on disk, the goal is an integer (by construction of
parseInt), every asset key is in lowercase form, and every asset value is a
non-NaN number.  Non-negativity is not maintained: accepted /add and
/setgoal commands can store negative values. -/
theorem c7_reachable_record_invariant (st : SysState) (h : Reachable st) :
    stateOK st := by
  induction h with
  | init =>
      exact ⟨fun p hp => absurd hp (List.not_mem_nil p),
             fun p hp => absurd hp (List.not_mem_nil p)⟩
  | step o e hst ih => exact stateOK_handleEvent o _ e ih
  | reload hst ih => exact ⟨ih.2, ih.2⟩

theorem c7_reachable_record_invariant_witness :
    stateOK (handleEvent ⟨.networkErr, false⟩ ⟨[], []⟩
      (.textMessage "U" "/add btc 0.5")).state :=
  c7_reachable_record_invariant _
    (Reachable.step ⟨.networkErr, false⟩ (.textMessage "U" "/add btc 0.5") Reachable.init)

theorem recordOf_lazyCreate (m : Store) (uid v : String) :
    recordOf (lazyCreate m uid) v = recordOf m v := by
  by_cases hv : v = uid
  · subst hv
    unfold lazyCreate
    cases h : lookupA m v with
    | some r => rfl
    | none =>
        unfold recordOf
        rw [lookupA_setA_self, h]
        rfl
  · exact recordOf_lazyCreate_ne m uid v hv

/-- C8: a /status event never persists and never mutates records, whatever
its outcome: the durable store after handling equals the durable store
before, every record present in memory before the event is still present
unchanged, and the record every user identifier denotes is unchanged. -/
theorem c8_status_no_mutation (o : Oracle) (st : SysState) (uid text : String)
    (hcmd : (msgParts text).headD "" = "/status") :
    (handleEvent o st (.textMessage uid text)).state.dur = st.dur ∧
    (∀ v r, lookupA st.mem v = some r →
      lookupA (handleEvent o st (.textMessage uid text)).state.mem v = some r) ∧
    (∀ v, recordOf (handleEvent o st (.textMessage uid text)).state.mem v =
      recordOf st.mem v) := by
  rw [handleEvent_text]
  dsimp only
  rw [hcmd, dispatch_status, statusCmd_state]
  exact ⟨rfl, fun v r h => lookupA_lazyCreate_mono h,
    fun v => recordOf_lazyCreate st.mem uid v⟩

theorem c8_status_no_mutation_witness :
    (handleEvent ⟨.httpError 500, false⟩ wStoreC2 (.textMessage "U" "/status")).state.dur =
      wStoreC2.dur ∧
    lookupA (handleEvent ⟨.httpError 500, false⟩ wStoreC2
      (.textMessage "U" "/status")).state.mem "U" = some ⟨0, [("btc", .fin 1)]⟩ := by
  have h := c8_status_no_mutation ⟨.httpError 500, false⟩ wStoreC2 "U" "/status" (by decide)
  exact ⟨h.1, h.2.1 "U" ⟨0, [("btc", .fin 1)]⟩ rfl⟩

/-- C9: the webhook endpoint attempts every event of the batch, one outcome
per event in order even when some events raise, and answers HTTP 200
unconditionally once the batch has been attempted. -/
theorem c9_batch_always_200 (batch : List (Event × Oracle)) (dur : Store) :
    (processBatch batch dur).httpStatus = 200 ∧
    (processBatch batch dur).outcomes.length = batch.length := by
  refine ⟨rfl, ?_⟩
  unfold processBatch
  have aux : ∀ (b : List (Event × Oracle)) (s : SysState) (acc : List Outcome),
      ((b.foldl
        (fun (a : SysState × List Outcome) eo =>
          let r := handleEvent eo.2 a.1 eo.1
          (r.state, a.2 ++ [r.outcome]))
        (s, acc))).2.length = acc.length + b.length := by
    intro b
    induction b with
    | nil =>
        intro s acc
        simp
    | cons x xs ih =>
        intro s acc
        rw [List.foldl_cons]
        dsimp only
        rw [ih]
        simp
        omega
  simpa using aux batch ⟨dur, dur⟩ []

theorem lookupA_lazyCreate_ne (m : Store) (uid v : String) (h : v ≠ uid) :
    lookupA (lazyCreate m uid) v = lookupA m v := by
  unfold lazyCreate
  cases lookupA m uid with
  | some _ => rfl
  | none => exact lookupA_setA_ne _ _ _ _ h

/-- C10: handling an event from one user never changes what any other user
identifier denotes: for a sender distinct from v, the record v denotes (the
default record when v has no entry, per the lazy-creation semantics) is the
same before and after the event, in the in-memory store and in the durable
store alike, provided memory and disk agreed on v beforehand. -/
theorem c10_user_isolation (o : Oracle) (st : SysState) (e : Event) (v : String)
    (hs : Event.sender e ≠ some v)
    (hsync : recordOf st.mem v = recordOf st.dur v) :
    recordOf (handleEvent o st e).state.mem v = recordOf st.mem v ∧
    recordOf (handleEvent o st e).state.dur v = recordOf st.dur v := by
  cases e with
  | other => exact ⟨rfl, rfl⟩
  | textMessage uid text =>
      have hv : v ≠ uid := by
        intro hh
        exact hs (by rw [hh]; rfl)
      have hmemlc : recordOf (lazyCreate st.mem uid) v = recordOf st.mem v := by
        unfold recordOf
        rw [lookupA_lazyCreate_ne _ _ _ hv]
      rw [handleEvent_text]
      dsimp only
      rcases dispatch_state_cases o ⟨lazyCreate st.mem uid, st.dur⟩ uid
          (recordOf (lazyCreate st.mem uid) uid) ((msgParts text).headD "")
          ((msgParts text).drop 1).head? ((msgParts text).drop 2).head? with
        h | ⟨sym, q, hq, h⟩ | ⟨g, h⟩
      · rw [h]
        exact ⟨hmemlc, rfl⟩
      · rw [h]
        dsimp only
        have hset : recordOf (setA (lazyCreate st.mem uid) uid
            ⟨(recordOf (lazyCreate st.mem uid) uid).goal,
             setA (recordOf (lazyCreate st.mem uid) uid).assets (lowStr sym) q⟩) v =
            recordOf st.mem v := by
          unfold recordOf
          rw [lookupA_setA_ne _ _ _ _ hv, lookupA_lazyCreate_ne _ _ _ hv]
        exact ⟨hset, hset.trans hsync⟩
      · rw [h]
        dsimp only
        have hset : recordOf (setA (lazyCreate st.mem uid) uid
            ⟨g, (recordOf (lazyCreate st.mem uid) uid).assets⟩) v =
            recordOf st.mem v := by
          unfold recordOf
          rw [lookupA_setA_ne _ _ _ _ hv, lookupA_lazyCreate_ne _ _ _ hv]
        exact ⟨hset, hset.trans hsync⟩

theorem c10_user_isolation_witness :
    recordOf (handleEvent ⟨.networkErr, false⟩
        ⟨[("V", ⟨5, []⟩)], [("V", ⟨5, []⟩)]⟩
        (.textMessage "U" "/setgoal 7")).state.mem "V" = ⟨5, []⟩ ∧
    recordOf (handleEvent ⟨.networkErr, false⟩
        ⟨[("V", ⟨5, []⟩)], [("V", ⟨5, []⟩)]⟩
        (.textMessage "U" "/setgoal 7")).state.dur "V" = ⟨5, []⟩ := by
  have h := c10_user_isolation ⟨.networkErr, false⟩
    ⟨[("V", ⟨5, []⟩)], [("V", ⟨5, []⟩)]⟩ (.textMessage "U" "/setgoal 7") "V"
    (by decide) rfl
  exact ⟨h.1.trans (by decide), h.2.trans (by decide)⟩
